import Mathlib

/-!
Verification of the TorrentUtilsR metainfo engine.

This file gives a shallow embedding of the Rust sources
(`src/torrent.rs`, `src/tr_info.rs`, `src/tr_file.rs`, `src/utils.rs`)
and proves or refutes the frozen claims about them.

Conventions of the embedding:
* Rust `u8` bytes are `Nat`; byte strings (`&[u8]`, `Vec<u8>`, `String`)
  are `List Nat`.
* Rust `usize` values are `Nat`; `i64` values are `Int`; the places where
  64-bit wrap-around matters (integer parsing bounds, `usize as i64`)
  carry explicit bounds or subtractions of `2 ^ 64`.
* The bencode decoder of `Torrent::read_torrent` advances a cursor `pos`
  over a byte slice; here the cursor is represented by the remaining
  suffix of the input, which is the same information (`pos` is the number
  of consumed bytes).  Loops are given explicit fuel; fuel sufficiency is
  proved where a claim depends on it.
* Filesystem reads are abstracted by explicit read oracles; the hashing
  pipeline is otherwise translated from the source.
-/

/-! ## Decimal rendering (Rust `usize::to_string` / `i64::to_string`) -/

/-- Auxiliary digit loop for decimal rendering, structural on fuel.
The fuel `n + 1` always suffices because `n / 10 < n` for `10 ≤ n`. -/
def natDecAux : Nat → Nat → List Nat → List Nat
  | 0, _, acc => acc
  | fuel + 1, n, acc =>
    if n < 10 then (n + 48) :: acc
    else natDecAux fuel (n / 10) ((n % 10 + 48) :: acc)

/-- ASCII decimal digits of a natural number, as produced by Rust's
`to_string` on an unsigned integer. -/
def natDec (n : Nat) : List Nat :=
  natDecAux (n + 1) n []

/-- ASCII decimal rendering of an `i64` value (minus sign for negatives). -/
def intDec (i : Int) : List Nat :=
  if i < 0 then 45 :: natDec i.natAbs else natDec i.toNat

/-! ## UTF-8 validation (Rust `String::from_utf8` acceptance) -/

/-- Whether a byte is a UTF-8 continuation byte (`0x80 ..= 0xBF`). -/
def isCont (b : Nat) : Bool :=
  128 ≤ b && b ≤ 191

/-- Validity of a byte sequence as UTF-8, exactly the sequences accepted by
Rust's `String::from_utf8` (RFC 3629: no overlong forms, no surrogates,
nothing above U+10FFFF). -/
def utf8Valid : List Nat → Bool
  | [] => true
  | b :: rest =>
    if b ≤ 127 then utf8Valid rest
    else if 194 ≤ b && b ≤ 223 then
      match rest with
      | b1 :: r => isCont b1 && utf8Valid r
      | _ => false
    else if b = 224 then
      match rest with
      | b1 :: b2 :: r => (160 ≤ b1 && b1 ≤ 191) && isCont b2 && utf8Valid r
      | _ => false
    else if 225 ≤ b && b ≤ 236 then
      match rest with
      | b1 :: b2 :: r => isCont b1 && isCont b2 && utf8Valid r
      | _ => false
    else if b = 237 then
      match rest with
      | b1 :: b2 :: r => (128 ≤ b1 && b1 ≤ 159) && isCont b2 && utf8Valid r
      | _ => false
    else if 238 ≤ b && b ≤ 239 then
      match rest with
      | b1 :: b2 :: r => isCont b1 && isCont b2 && utf8Valid r
      | _ => false
    else if b = 240 then
      match rest with
      | b1 :: b2 :: b3 :: r =>
        (144 ≤ b1 && b1 ≤ 191) && isCont b2 && isCont b3 && utf8Valid r
      | _ => false
    else if 241 ≤ b && b ≤ 243 then
      match rest with
      | b1 :: b2 :: b3 :: r => isCont b1 && isCont b2 && isCont b3 && utf8Valid r
      | _ => false
    else if b = 244 then
      match rest with
      | b1 :: b2 :: b3 :: r =>
        (128 ≤ b1 && b1 ≤ 143) && isCont b2 && isCont b3 && utf8Valid r
      | _ => false
    else false

/-! ## SHA-1 (the `sha1` crate used by `TrInfo::hash` and the piece hasher) -/

/-- Reduction into a 32-bit word. -/
def mask32 (n : Nat) : Nat :=
  n % 4294967296

/-- Left rotation of a 32-bit word by `k` bits. -/
def rotl32 (x k : Nat) : Nat :=
  mask32 ((x <<< k) ||| (x >>> (32 - k)))

/-- Big-endian bytes of a 32-bit word. -/
def be32 (n : Nat) : List Nat :=
  [(n >>> 24) % 256, (n >>> 16) % 256, (n >>> 8) % 256, n % 256]

/-- Big-endian bytes of a 64-bit word (the SHA-1 length field). -/
def be64 (n : Nat) : List Nat :=
  be32 (n >>> 32) ++ be32 n

/-- SHA-1 message padding: one `0x80` byte, zeros, and the bit length,
bringing the total length to a multiple of 64. -/
def sha1Pad (msg : List Nat) : List Nat :=
  msg ++ 128 :: List.replicate ((64 - (msg.length + 9) % 64) % 64) 0 ++
    be64 (8 * msg.length)

/-- Splits a byte list into 64-byte blocks (structural on fuel). -/
def chunks64 : Nat → List Nat → List (List Nat)
  | 0, _ => []
  | _, [] => []
  | fuel + 1, l => l.take 64 :: chunks64 fuel (l.drop 64)

/-- The sixteen 32-bit big-endian words of one 64-byte block. -/
def blockWords : List Nat → List Nat
  | b0 :: b1 :: b2 :: b3 :: r =>
    (((b0 * 256 + b1) * 256 + b2) * 256 + b3) :: blockWords r
  | _ => []

/-- Message-schedule extension: appends words 16..79. -/
def sha1Extend : Nat → List Nat → List Nat
  | 0, w => w
  | fuel + 1, w =>
    let n := w.length
    sha1Extend fuel
      (w ++ [rotl32 ((w.getD (n - 3) 0 ^^^ w.getD (n - 8) 0) ^^^
        (w.getD (n - 14) 0 ^^^ w.getD (n - 16) 0)) 1])

/-- One SHA-1 compression round. -/
def sha1Round (w : List Nat) (st : Nat × Nat × Nat × Nat × Nat) (t : Nat) :
    Nat × Nat × Nat × Nat × Nat :=
  match st with
  | (a, b, c, d, e) =>
    let f :=
      if t < 20 then (b &&& c) ||| ((b ^^^ 4294967295) &&& d)
      else if t < 40 then (b ^^^ c) ^^^ d
      else if t < 60 then ((b &&& c) ||| (b &&& d)) ||| (c &&& d)
      else (b ^^^ c) ^^^ d
    let k :=
      if t < 20 then 1518500249
      else if t < 40 then 1859775393
      else if t < 60 then 2400959708
      else 3395469782
    let temp := mask32 (rotl32 a 5 + f + e + k + w.getD t 0)
    (temp, a, rotl32 b 30, c, d)

/-- Processing of one 64-byte block into the running hash state. -/
def sha1Block (h : Nat × Nat × Nat × Nat × Nat) (block : List Nat) :
    Nat × Nat × Nat × Nat × Nat :=
  match h with
  | (h0, h1, h2, h3, h4) =>
    let w := sha1Extend 64 (blockWords block)
    match (List.range 80).foldl (sha1Round w) (h0, h1, h2, h3, h4) with
    | (a, b, c, d, e) =>
      (mask32 (h0 + a), mask32 (h1 + b), mask32 (h2 + c), mask32 (h3 + d),
        mask32 (h4 + e))

/-- SHA-1 digest (20 bytes) of a byte sequence. -/
def sha1 (msg : List Nat) : List Nat :=
  let padded := sha1Pad msg
  match (chunks64 (padded.length / 64) padded).foldl sha1Block
      (1732584193, 4023233417, 2562383102, 271733878, 3285377520) with
  | (h0, h1, h2, h3, h4) => be32 h0 ++ be32 h1 ++ be32 h2 ++ be32 h3 ++ be32 h4

/-- One lowercase hexadecimal digit as an ASCII byte. -/
def hexDigit (n : Nat) : Nat :=
  if n < 10 then n + 48 else n + 87

/-- Lowercase hexadecimal rendering of bytes (the `hex::encode` used by
`TrInfo::hash`). -/
def hexOfBytes (bytes : List Nat) : List Nat :=
  bytes.flatMap fun b => [hexDigit (b / 16), hexDigit (b % 16)]

/-! ## Data model (`TrFile`, `TrInfo`, `Torrent` from `src/torrent.rs`) -/

/-- One entry of a torrent's file list (`struct TrFile`). `path` holds the
path segments; it is empty in the single-file form. -/
structure TrFile where
  length : Nat
  path : List (List Nat)
deriving DecidableEq, Repr

/-- The `info` dictionary (`struct TrInfo`).  The Rust field `private` is
called `privateFlag` here because `private` is a Lean keyword. -/
structure TrInfo where
  files : Option (List TrFile)
  length : Option Nat
  name : Option (List Nat)
  piece_length : Nat
  pieces : List Nat
  privateFlag : Bool
deriving DecidableEq, Repr

/-- The top-level metainfo value (`struct Torrent`). -/
structure Torrent where
  announce : Option (List Nat)
  announce_list : Option (List (List (List Nat)))
  comment : Option (List Nat)
  created_by : Option (List Nat)
  creation_date : Option Int
  encoding : Option (List Nat)
  hash : Option (List Nat)
  info : Option TrInfo
deriving DecidableEq, Repr

/-- The error enumeration (`enum TorrentError`). -/
inductive TorrentError where
  | io : String → TorrentError
  | invalidPath : String → TorrentError
  | invalidTorrent : String → TorrentError
  | missingField : String → TorrentError
  | parseErr : String → TorrentError
  | encodingErr : String → TorrentError
deriving DecidableEq, Repr

/-! ## Bencode encoders (`bencode_bytes` and friends, `src/torrent.rs`) -/

/-- `bencode_bytes`: length, colon, raw bytes. -/
def bencodeBytes (bytes : List Nat) : List Nat :=
  natDec bytes.length ++ 58 :: bytes

/-- `bencode_string`: identical byte output to `bencode_bytes` (a Rust
`String`'s UTF-8 bytes are the byte list here). -/
def bencodeString (s : List Nat) : List Nat :=
  natDec s.length ++ 58 :: s

/-- `bencode_uint`: `i<decimal>e` for a `usize`. -/
def bencodeUint (i : Nat) : List Nat :=
  105 :: natDec i ++ [101]

/-- `bencode_int`: `i<decimal>e` for an `i64`. -/
def bencodeInt (i : Int) : List Nat :=
  105 :: intDec i ++ [101]

/-- `bencode_string_list`: `l…e` over `bencode_string`. -/
def bencodeStringList (list : List (List Nat)) : List Nat :=
  108 :: list.flatMap bencodeString ++ [101]

/-- `TrFile::bencode`: dictionary with keys `length`, `path`. -/
def TrFile.bencode (f : TrFile) : List Nat :=
  100 :: (bencodeString [108, 101, 110, 103, 116, 104] ++ bencodeUint f.length ++
    bencodeString [112, 97, 116, 104] ++ bencodeStringList f.path) ++ [101]

/-- `bencode_file_list`: `l…e` over `TrFile::bencode`. -/
def bencodeFileList (list : List TrFile) : List Nat :=
  108 :: list.flatMap TrFile.bencode ++ [101]

/-- `TrInfo::bencode`: the `info` dictionary.  Optional keys are emitted
only when present; `pieces` is emitted only when nonempty; `private` only
when true. -/
def TrInfo.bencode (i : TrInfo) : List Nat :=
  100 ::
    ((match i.files with
      | some fs => bencodeString [102, 105, 108, 101, 115] ++ bencodeFileList fs
      | none => []) ++
    (match i.length with
      | some l => bencodeString [108, 101, 110, 103, 116, 104] ++ bencodeUint l
      | none => []) ++
    (match i.name with
      | some n => bencodeString [110, 97, 109, 101] ++ bencodeString n
      | none => []) ++
    (bencodeString [112, 105, 101, 99, 101, 32, 108, 101, 110, 103, 116, 104] ++
      bencodeUint i.piece_length) ++
    (if i.pieces.isEmpty then []
      else bencodeString [112, 105, 101, 99, 101, 115] ++ bencodeBytes i.pieces) ++
    (if i.privateFlag then
      bencodeString [112, 114, 105, 118, 97, 116, 101] ++ bencodeUint 1
      else [])) ++ [101]

/-- `TrInfo::hash`: lowercase hex of the SHA-1 of the re-encoded `info`
dictionary (not of any input byte span). -/
def TrInfo.hash (i : TrInfo) : List Nat :=
  hexOfBytes (sha1 i.bencode)

/-- `Torrent::bencode`: the top-level dictionary.  Note the emission order:
`announce`, `announce-list`, `comment`, `created by`, `creation date`,
`encoding`, `info`, and then `hash` last. -/
def Torrent.bencode (t : Torrent) : List Nat :=
  100 ::
    ((match t.announce with
      | some a => bencodeString [97, 110, 110, 111, 117, 110, 99, 101] ++ bencodeString a
      | none => []) ++
    (match t.announce_list with
      | some tiers =>
        bencodeString [97, 110, 110, 111, 117, 110, 99, 101, 45, 108, 105, 115, 116] ++
          108 :: tiers.flatMap (fun tier => 108 :: tier.flatMap bencodeString ++ [101]) ++
          [101]
      | none => []) ++
    (match t.comment with
      | some c => bencodeString [99, 111, 109, 109, 101, 110, 116] ++ bencodeString c
      | none => []) ++
    (match t.created_by with
      | some c =>
        bencodeString [99, 114, 101, 97, 116, 101, 100, 32, 98, 121] ++ bencodeString c
      | none => []) ++
    (match t.creation_date with
      | some d =>
        bencodeString [99, 114, 101, 97, 116, 105, 111, 110, 32, 100, 97, 116, 101] ++
          bencodeInt d
      | none => []) ++
    (match t.encoding with
      | some e => bencodeString [101, 110, 99, 111, 100, 105, 110, 103] ++ bencodeString e
      | none => []) ++
    (match t.info with
      | some i => bencodeString [105, 110, 102, 111] ++ i.bencode
      | none => []) ++
    (match t.hash with
      | some h => bencodeString [104, 97, 115, 104] ++ bencodeString h
      | none => [])) ++ [101]

/-! ## Bencode decoder (`parse_bencode` inside `Torrent::read_torrent`)

The Rust decoder walks a byte slice with a mutable cursor `pos`; here the
cursor is the remaining suffix.  `Bencode::Int` holds the nonnegative
(`usize`) case and `Bencode::UInt` the negative (`i64`) case, exactly as in
the source.  Dictionaries are `HashMap`s observed only through `get`, so
they are embedded as association lists with overwriting insert. -/

inductive Bencode where
  | int : Nat → Bencode
  | uint : Int → Bencode
  | bytes : List Nat → Bencode
  | list : List Bencode → Bencode
  | dict : List (List Nat × Bencode) → Bencode

/-- `HashMap::insert`: a later binding for the same key overwrites. -/
def dinsert (k : List Nat) (v : Bencode) (m : List (List Nat × Bencode)) :
    List (List Nat × Bencode) :=
  (k, v) :: m.filter (fun p => p.1 != k)

/-- `HashMap::get`. -/
def dget (m : List (List Nat × Bencode)) (k : List Nat) : Option Bencode :=
  (m.find? (fun p => p.1 == k)).map (fun p => p.2)

/-- Value of an all-digit ASCII run, accumulated left to right. -/
def digitsValAux : List Nat → Nat → Option Nat
  | [], acc => some acc
  | d :: r, acc =>
    if 48 ≤ d && d ≤ 57 then digitsValAux r (acc * 10 + (d - 48)) else none

/-- `str::parse::<usize>`: optional leading plus sign, then digits, bounded
by `2 ^ 64`. -/
def parseUsizeBytes (s : List Nat) : Option Nat :=
  let t := match s with | 43 :: r => r | _ => s
  match t with
  | [] => none
  | _ =>
    match digitsValAux t 0 with
    | some v => if v < 18446744073709551616 then some v else none
    | none => none

/-- `str::parse::<i64>`; in the decoder it is only reached on segments that
start with a minus sign. -/
def parseI64Bytes (s : List Nat) : Option Int :=
  match s with
  | 45 :: r =>
    match r with
    | [] => none
    | _ =>
      match digitsValAux r 0 with
      | some v => if v ≤ 9223372036854775808 then some (-(v : Int)) else none
      | none => none
  | _ =>
    match parseUsizeBytes s with
    | some v => if v ≤ 9223372036854775807 then some (v : Int) else none
    | none => none

/-- Result of one decoder step: a value with the remaining input, a decode
error, a panic of the source (`crash`), or exhausted fuel (`spin` is
proved unreachable for sufficient fuel in `parseBencode_total`).  `crash`
marks the one place the Rust parser aborts instead of returning: the
byte-string case computes `let end = *pos + len;` with `usize` arithmetic,
so when `*pos + len` exceeds `usize::MAX` a debug build panics on the add
and a release build wraps `end` below `*pos` and then panics on the
`&data[*pos..end]` slice — either way the process dies. -/
inductive PRes where
  | ok : Bencode → List Nat → PRes
  | fail : TorrentError → PRes
  | crash : PRes
  | spin : PRes

mutual

/-- The decoder `parse_bencode`, translated case by case; byte 105 is `i`,
108 `l`, 100 `d`, 101 `e`, 58 `:`, 45 `-`.  `tot` is the length of the
whole input slice (`data.len()` in the source, which never changes), so
the source's cursor `*pos` is `tot - remaining.length` whenever `data` is
the not-yet-consumed suffix of that input, as it is in `read_torrent`.
The string case first reproduces `let end = *pos + len;`: if the sum
reaches `2 ^ 64` the source panics (see `PRes.crash`); otherwise
`end > data.len()` is exactly `len > body.length`. -/
def parseBencode : Nat → Nat → List Nat → PRes
  | 0, _, _ => .spin
  | fuel + 1, tot, data =>
    match data with
    | [] => .fail (.parseErr "unexpected EOF")
    | b :: rest =>
      if b = 105 then
        let seg := rest.takeWhile (fun c => c != 101)
        if seg.length = rest.length then .fail (.parseErr "unterminated integer")
        else if utf8Valid seg then
          let rest2 := rest.drop (seg.length + 1)
          match seg with
          | 45 :: _ =>
            match parseI64Bytes seg with
            | some v => .ok (.uint v) rest2
            | none => .fail (.parseErr "invalid int")
          | _ =>
            match parseUsizeBytes seg with
            | some v => .ok (.int v) rest2
            | none => .fail (.parseErr "invalid int")
        else .fail (.parseErr "invalid utf8 in int")
      else if b = 108 then parseListItems fuel tot rest []
      else if b = 100 then parseDictItems fuel tot rest []
      else if 48 ≤ b && b ≤ 57 then
        let seg := data.takeWhile (fun c => c != 58)
        if seg.length = data.length then
          .fail (.invalidTorrent "truncated string length")
        else if utf8Valid seg then
          match parseUsizeBytes seg with
          | some len =>
            let body := data.drop (seg.length + 1)
            if 18446744073709551616 ≤ tot - body.length + len then .crash
            else if len ≤ body.length then .ok (.bytes (body.take len)) (body.drop len)
            else .fail (.invalidTorrent "truncated string")
          | none => .fail (.parseErr "bad string length")
        else .fail (.parseErr "invalid utf8 length")
      else .fail (.parseErr "unknown token")

/-- The `while data.get(*pos) != Some(&b'e')` loop of the list case. -/
def parseListItems : Nat → Nat → List Nat → List Bencode → PRes
  | 0, _, _, _ => .spin
  | fuel + 1, tot, data, acc =>
    match data with
    | 101 :: rest => .ok (.list acc.reverse) rest
    | _ =>
      match parseBencode fuel tot data with
      | .ok v rest => parseListItems fuel tot rest (v :: acc)
      | r => r

/-- The key/value loop of the dictionary case. -/
def parseDictItems : Nat → Nat → List Nat → List (List Nat × Bencode) → PRes
  | 0, _, _, _ => .spin
  | fuel + 1, tot, data, acc =>
    match data with
    | 101 :: rest => .ok (.dict acc) rest
    | _ =>
      match parseBencode fuel tot data with
      | .ok kv rest =>
        match kv with
        | .bytes kb =>
          if utf8Valid kb then
            match parseBencode fuel tot rest with
            | .ok v rest2 => parseDictItems fuel tot rest2 (dinsert kb v acc)
            | r => r
          else .fail (.invalidTorrent "invalid utf8 key")
        | _ => .fail (.invalidTorrent "dict key not string")
      | r => r

end

/-! ## Field extraction of `Torrent::read_torrent` -/

def infoKey : List Nat := [105, 110, 102, 111]

def filesKey : List Nat := [102, 105, 108, 101, 115]

def lengthKey : List Nat := [108, 101, 110, 103, 116, 104]

def nameKey : List Nat := [110, 97, 109, 101]

def pieceLengthKey : List Nat := [112, 105, 101, 99, 101, 32, 108, 101, 110, 103, 116, 104]

def piecesKey : List Nat := [112, 105, 101, 99, 101, 115]

def privateKey : List Nat := [112, 114, 105, 118, 97, 116, 101]

def pathKey : List Nat := [112, 97, 116, 104]

def announceKey : List Nat := [97, 110, 110, 111, 117, 110, 99, 101]

def announceListKey : List Nat := [97, 110, 110, 111, 117, 110, 99, 101, 45, 108, 105, 115, 116]

def commentKey : List Nat := [99, 111, 109, 109, 101, 110, 116]

def createdByKey : List Nat := [99, 114, 101, 97, 116, 101, 100, 32, 98, 121]

def creationDateKey : List Nat := [99, 114, 101, 97, 116, 105, 111, 110, 32, 100, 97, 116, 101]

def encodingKey : List Nat := [101, 110, 99, 111, 100, 105, 110, 103]

def hashKey : List Nat := [104, 97, 115, 104]

/-- The repeated `match get(k) { Some(Bytes(b)) => Some(String::from_utf8(b)?),
_ => None }` pattern of `read_torrent`: an optional text field. -/
def getOptBytes (m : List (List Nat × Bencode)) (k : List Nat) :
    Except TorrentError (Option (List Nat)) :=
  match dget m k with
  | some (.bytes b) =>
    if utf8Valid b then .ok (some b)
    else .error (.encodingErr "UTF-8 conversion error")
  | _ => .ok none

/-- Path segments of one file entry: byte-string parts are converted (with
UTF-8 validation), parts of any other shape are silently skipped. -/
def collectPathParts : List Bencode → Except TorrentError (List (List Nat))
  | [] => .ok []
  | .bytes b :: rest =>
    if utf8Valid b then (collectPathParts rest).map (fun ps => b :: ps)
    else .error (.encodingErr "UTF-8 conversion error")
  | _ :: rest => collectPathParts rest

/-- The `files` loop of `read_torrent`: dictionary entries yield a `TrFile`
(`length` must be a nonnegative integer, `path` a list), entries of any
other shape are silently skipped. -/
def parseTrFiles : List Bencode → Except TorrentError (List TrFile)
  | [] => .ok []
  | .dict m :: rest => do
    let length ←
      match dget m lengthKey with
      | some (.int i) => Except.ok i
      | _ => Except.error (.invalidTorrent "file length invalid")
    let path ←
      match dget m pathKey with
      | some (.list parts) => collectPathParts parts
      | _ => Except.error (.invalidTorrent "file path invalid")
    let out ← parseTrFiles rest
    .ok (⟨length, path⟩ :: out)
  | _ :: rest => parseTrFiles rest

/-- URLs of one announce tier; a non-byte-string URL is an error. -/
def collectUrls : List Bencode → Except TorrentError (List (List Nat))
  | [] => .ok []
  | .bytes b :: rest =>
    if utf8Valid b then (collectUrls rest).map (fun us => b :: us)
    else .error (.encodingErr "UTF-8 conversion error")
  | _ :: _ => .error (.invalidTorrent "Announce URL is not a string")

/-- The `announce-list` loop; a non-list tier is an error. -/
def parseAnnounceList : List Bencode → Except TorrentError (List (List (List Nat)))
  | [] => .ok []
  | .list urls :: rest => do
    let tier ← collectUrls urls
    let out ← parseAnnounceList rest
    .ok (tier :: out)
  | _ :: _ => .error (.invalidTorrent "Announce tier is not a list")

/-- The `usize as i64` cast of the `creation date` extraction (the decoder
bounds `Int` payloads by `2 ^ 64`). -/
def usizeAsI64 (i : Nat) : Int :=
  if i < 9223372036854775808 then (i : Int) else (i : Int) - 18446744073709551616

/-- The `match tr_dict.get("info") { Some(Dict(m)) => m, _ => Err(..) }`
step of `read_torrent`. -/
def getInfoDict (m : List (List Nat × Bencode)) :
    Except TorrentError (List (List Nat × Bencode)) :=
  match dget m infoKey with
  | some (.dict im) => .ok im
  | _ => .error (.invalidTorrent "missing info dict")

/-- The `files` extraction: only a list value is parsed, anything else
(including absence) silently yields `None`. -/
def getFilesField (im : List (List Nat × Bencode)) :
    Except TorrentError (Option (List TrFile)) :=
  match dget im filesKey with
  | some (.list files) => (parseTrFiles files).map some
  | _ => .ok none

/-- The required nonnegative-integer extraction pattern
(`piece length missing` style errors). -/
def getReqInt (im : List (List Nat × Bencode)) (k : List Nat) (msg : String) :
    Except TorrentError Nat :=
  match dget im k with
  | some (.int i) => .ok i
  | _ => .error (.invalidTorrent msg)

/-- The required byte-string extraction pattern (`pieces missing`). -/
def getReqBytes (im : List (List Nat × Bencode)) (k : List Nat) (msg : String) :
    Except TorrentError (List Nat) :=
  match dget im k with
  | some (.bytes b) => .ok b
  | _ => .error (.invalidTorrent msg)

/-- The `announce-list` extraction: only a list value is parsed, anything
else silently yields `None`. -/
def getAnnounceListField (m : List (List Nat × Bencode)) :
    Except TorrentError (Option (List (List (List Nat)))) :=
  match dget m announceListKey with
  | some (.list lists) => (parseAnnounceList lists).map some
  | _ => .ok none

/-- The `length` extraction: optional, no error path. -/
def getLengthField (im : List (List Nat × Bencode)) : Option Nat :=
  match dget im lengthKey with
  | some (.int i) => some i
  | _ => none

/-- The `private` extraction: an integer compares against zero, anything
else is `false`. -/
def getPrivateField (im : List (List Nat × Bencode)) : Bool :=
  match dget im privateKey with
  | some (.int i) => i != 0
  | _ => false

/-- The `creation date` extraction: a negative integer is taken as is, a
nonnegative one goes through `usize as i64`. -/
def getCreationDate (m : List (List Nat × Bencode)) : Option Int :=
  match dget m creationDateKey with
  | some (.uint i) => some i
  | some (.int i) => some (usizeAsI64 i)
  | _ => none

/-- Field extraction of `read_torrent` once the root dictionary is in hand,
in the evaluation order of the source (the `TrInfo` literal first, then the
`Torrent` literal). -/
def readTorrentDict (trDict : List (List Nat × Bencode)) :
    Except TorrentError Torrent := do
  let infoDict ← getInfoDict trDict
  let trFiles ← getFilesField infoDict
  let nameB ← getOptBytes infoDict nameKey
  let pieceLength ← getReqInt infoDict pieceLengthKey "piece length missing"
  let piecesB ← getReqBytes infoDict piecesKey "pieces missing"
  let announce ← getOptBytes trDict announceKey
  let alist ← getAnnounceListField trDict
  let comment ← getOptBytes trDict commentKey
  let createdBy ← getOptBytes trDict createdByKey
  let encoding ← getOptBytes trDict encodingKey
  let hashB ← getOptBytes trDict hashKey
  Except.ok
    { announce := announce
      announce_list := alist
      comment := comment
      created_by := createdBy
      creation_date := getCreationDate trDict
      encoding := encoding
      hash := hashB
      info := some
        { files := trFiles
          length := getLengthField infoDict
          name := nameB
          piece_length := pieceLength
          pieces := piecesB
          privateFlag := getPrivateField infoDict } }

/-- Fuel with which `read_torrent` runs the decoder; `parseBencode_total`
proves it sufficient, so `spin` is unreachable. -/
def parseFuel (data : List Nat) : Nat :=
  2 * data.length + 1

/-- `Torrent::read_torrent` on the bytes of the metainfo file (the
`fs::read` is abstracted into the argument).  Trailing bytes after the root
value are ignored, as in the source.  A `crash` of the decoder is a panic
of the real program — it aborts the process rather than returning; since
this function must be total it folds that outcome into the error side.
No theorem below depends on the distinction: the set of inputs on which a
`Torrent` is returned is unchanged, and the decoder-level claims are
stated on `parseBencode` itself, where the panic is explicit. -/
def readTorrent (bcode : List Nat) : Except TorrentError Torrent :=
  match parseBencode (parseFuel bcode) bcode.length bcode with
  | .ok (.dict m) _ => readTorrentDict m
  | .ok _ _ => .error (.invalidTorrent "torrent root is not a dictionary")
  | .fail e => .error e
  | .crash => .error (.parseErr "index out of range")
  | .spin => .error (.parseErr "parser fuel exhausted")

/-! ## Piece planner (`calc_piece_file_info`, `src/tr_info.rs`)

The planner appends pieces at the end of `piece_file_info` and triples at
the end of the current piece; the embedding keeps both lists reversed while
building (newest first) and restores source order in `calcPieceFileInfo`.
-/

/-- One `(file_index, file_offset, length)` triple (`struct FileHashInfo`). -/
structure FileHashInfo where
  file_index : Nat
  file_offset : Nat
  length : Nat
deriving DecidableEq, Repr

/-- The `while rest_size > 0` loop of `calc_piece_file_info` for one file.
Each iteration consumes `min rest unfilled` bytes (after opening a fresh
piece when `unfilled = 0`), so fuel `rest` suffices whenever the piece
length is positive.  The `[]` fallback of the inner match mirrors the
`last_mut().expect(..)`: it is unreachable because a piece is opened before
the first push. -/
def fillFile (fi P : Nat) : Nat → Nat → Nat → Nat → List (List FileHashInfo) →
    List (List FileHashInfo) × Nat
  | 0, _, _, unfilled, acc => (acc, unfilled)
  | fuel + 1, rest, fo, unfilled, acc =>
    if rest = 0 then (acc, unfilled)
    else
      let acc1 := if unfilled = 0 then [] :: acc else acc
      let unf1 := if unfilled = 0 then P else unfilled
      let used := min rest unf1
      let acc2 :=
        match acc1 with
        | p :: ps => (⟨fi, fo, used⟩ :: p) :: ps
        | [] => [[⟨fi, fo, used⟩]]
      fillFile fi P fuel (rest - used) (fo + used) (unf1 - used) acc2

/-- The outer `for (file_index, tr_file)` loop of `calc_piece_file_info`;
`file_offset` restarts at `0` for every file. -/
def calcAux (P : Nat) : List (Nat × TrFile) → Nat → List (List FileHashInfo) →
    List (List FileHashInfo) × Nat
  | [], unfilled, acc => (acc, unfilled)
  | (fi, f) :: rest, unfilled, acc =>
    match fillFile fi P (f.length + 1) f.length 0 unfilled acc with
    | (acc2, unf2) => calcAux P rest unf2 acc2

/-- `calc_piece_file_info`: the piece-to-file map
`piece → [(file_index, file_offset, length), …]`. -/
def calcPieceFileInfo (tr_files : List TrFile) (piece_length : Nat) :
    List (List FileHashInfo) :=
  (((calcAux piece_length tr_files.enum 0 []).1).map List.reverse).reverse

/-! ## The inline piece map of `TrInfo::verify` (`src/torrent.rs` 295-338)

`TrInfo::verify` does not call the planner; it rebuilds a
`piece_file_info` with its own loop.  The state is the accumulated map
(reversed here, as above), the `file_offset` fill position, and
`pool_size`. -/

/-- The part of the loop body after the `if file_offset > 0` block: whole
pieces carved out of the current file, then the trailing partial piece. -/
def inlineTail (P fi pool fo : Nat) (acc : List (List FileHashInfo)) :
    List (List FileHashInfo) × Nat × Nat :=
  let piece_count := (pool + fo) / P - (if 0 < fo then 1 else 0)
  let start := (P - fo) % P
  let acc1 := (List.range piece_count).foldl
    (fun a i => [⟨fi, start + P * i, P⟩] :: a) acc
  let fo2 := pool % P
  if 0 < fo2 then ([⟨fi, start + P * piece_count, fo2⟩] :: acc1, fo2, fo2)
  else (acc1, fo2, 0)

/-- One iteration of the `for (file_index, tr_file)` loop of
`TrInfo::verify`.  When `file_offset > 0` and the map is nonempty, the
current file first tops up the last piece; the `pool > P` branch then falls
through to `inlineTail`, the other two branches `continue`. -/
def inlineStep (P : Nat) (st : List (List FileHashInfo) × Nat × Nat)
    (e : Nat × TrFile) : List (List FileHashInfo) × Nat × Nat :=
  match st, e with
  | (acc, fo, pool0), (fi, f) =>
    let pool := pool0 + f.length
    if 0 < fo then
      match acc with
      | last :: ps =>
        if P < pool then inlineTail P fi pool fo ((⟨fi, 0, P - fo⟩ :: last) :: ps)
        else if pool < P then ((⟨fi, 0, f.length⟩ :: last) :: ps, fo + f.length, pool)
        else ((⟨fi, 0, f.length⟩ :: last) :: ps, 0, 0)
      | [] => inlineTail P fi pool fo []
    else inlineTail P fi pool fo acc

/-- The piece-to-file map that `TrInfo::verify` constructs and re-hashes
against. -/
def inlinePieceMap (tr_files : List TrFile) (P : Nat) :
    List (List FileHashInfo) :=
  (((tr_files.enum.foldl (inlineStep P) ([], 0, 0)).1).map List.reverse).reverse

/-! ## Hashing pipeline (`hash_piece_file`, `hash_tr_files`, `hash_pieces`)

File I/O is abstracted by a read oracle: `readF file_index offset len`
returns the bytes a `File::open`/`seek`/`read` sequence yields (possibly
fewer than `len` — a short read is not an error) or the I/O error's
message.  Feeding reads into one SHA-1 state and finalizing equals the
SHA-1 of the concatenated reads. -/

/-- Filesystem read abstraction. -/
abbrev ReadOracle := Nat → Nat → Nat → Except String (List Nat)

/-- The reads of one piece task, concatenated in triple order
(the `for file_hash_info in piece` loop body). -/
def pieceReads (readF : ReadOracle) : List FileHashInfo → Except String (List Nat)
  | [] => .ok []
  | fhi :: rest => do
    let bytes ← readF fhi.file_index fhi.file_offset fhi.length
    let more ← pieceReads readF rest
    .ok (bytes ++ more)

/-- One piece task of `hash_piece_file`: read the piece's spans, hash them. -/
def runPiece (readF : ReadOracle) (piece : List FileHashInfo) :
    Except String (List Nat) :=
  (pieceReads readF piece).map sha1

/-- `hash_piece_file` with the tasks run in piece order: an I/O error is
wrapped by `From<io::Error>` into `TrError::IO` and aborts the whole
collection. -/
def hashPieceFileSeq (readF : ReadOracle) :
    List (List FileHashInfo) → Except TorrentError (List (List Nat))
  | [] => .ok []
  | piece :: rest =>
    match runPiece readF piece with
    | .ok digest => (hashPieceFileSeq readF rest).map (fun ds => digest :: ds)
    | .error e => .error (.io e)

/-- The scheduler model of the rayon pool in `hash_piece_file`:
`order` is the sequence in which the workers finish the piece tasks (any
interleaving the OS produces), and each finished task writes its result
into the slot of its own piece index.  `n_jobs` sizes the worker pool; it
affects neither which tasks exist nor which slot a task writes (modelled
from the spec's parallelism contract for `par_iter`/`collect`). -/
def taskOf (readF : ReadOracle) (info : List (List FileHashInfo)) (i : Nat) :
    Except String (List Nat) :=
  runPiece readF (info.getD i [])

/-- Slot update of the result vector. -/
def writeSlot (slots : Nat → Option (Except String (List Nat))) (i : Nat)
    (v : Except String (List Nat)) : Nat → Option (Except String (List Nat)) :=
  fun j => if j = i then some v else slots j

/-- Execution of the piece tasks in completion order `order`. -/
def runSched (readF : ReadOracle) (info : List (List FileHashInfo))
    (order : List Nat) : Nat → Option (Except String (List Nat)) :=
  order.foldl (fun slots i => writeSlot slots i (taskOf readF info i)) (fun _ => none)

/-- The result vector assembled in piece-index order after a run of the
pool with `n_jobs` workers whose tasks complete in order `order`. -/
def collectSched (readF : ReadOracle) (info : List (List FileHashInfo))
    (n_jobs : Nat) (order : List Nat) : List (Option (Except String (List Nat))) :=
  (List.range info.length).map (runSched readF info order)

/-- `hash_tr_files`: plan, hash every piece, concatenate the digests. -/
def hashTrFiles (readF : ReadOracle) (tr_files : List TrFile) (chunk_size : Nat) :
    Except TorrentError (List Nat) :=
  (hashPieceFileSeq readF (calcPieceFileInfo tr_files chunk_size)).map
    (fun slices => slices.flatMap id)

/-! ## Creation (`TrInfo::new`, `Torrent::create_torrent`) -/

/-- Fuel-chunking of a byte stream into `chunk`-sized spans (last one may
be shorter); fuel `l.length` suffices for `chunk > 0`. -/
def chunksOf : Nat → Nat → List Nat → List (List Nat)
  | 0, _, _ => []
  | _, _, [] => []
  | fuel + 1, c, l => l.take c :: chunksOf fuel c (l.drop c)

/-- `hash_pieces` (`src/torrent.rs`): streams the target's bytes through a
256 KiB buffer and emits one SHA-1 digest per completed `chunk_size` span,
plus one digest for a nonempty trailing span — that is, the SHA-1 of each
`chunk_size`-chunk of the concatenated contents.  For a zero-byte target no
digest is emitted. -/
def hashPiecesBytes (content : List Nat) (chunk_size : Nat) : List Nat :=
  (chunksOf content.length chunk_size content).flatMap sha1

/-- `TrInfo::new` on a single-file target (the `is_file` branch), with the
file's bytes supplied explicitly in place of the filesystem. -/
def trInfoNewSingle (name : List Nat) (content : List Nat) (chunk_size : Nat)
    (priv : Bool) : TrInfo :=
  { files := none
    length := some content.length
    name := some name
    piece_length := chunk_size
    pieces := hashPiecesBytes content chunk_size
    privateFlag := priv }

/-- `Torrent::create_torrent` after `TrInfo::new` has produced `info`: the
nonstandard `hash` field is set to `info.hash()` and the info block is
installed. -/
def createTorrentStep (t : Torrent) (info : TrInfo) : Torrent :=
  { t with hash := some info.hash, info := some info }

/-! ## Result projections and sums -/

/-- Whether a decoder step ran out of fuel. -/
def PRes.isSpin : PRes → Bool
  | .spin => true
  | _ => false

/-- Whether a decoder step hit the source's panic. -/
def PRes.isCrash : PRes → Bool
  | .crash => true
  | _ => false

/-- Byte count of one piece of a piece map. -/
def pieceSumR (p : List FileHashInfo) : Nat :=
  (p.map FileHashInfo.length).sum

/-- Byte count of a whole piece map. -/
def planSum (plan : List (List FileHashInfo)) : Nat :=
  (plan.map pieceSumR).sum

/-- Total size of a file list (`total_size` in `calc_piece_file_info`). -/
def sumLens (files : List TrFile) : Nat :=
  (files.map TrFile.length).sum

/-- Invariant of the planner's reversed accumulator after `S` bytes have
been consumed: either nothing has been emitted, or the newest piece is
`unfilled` bytes short of `piece_length` and every older piece is exactly
full. -/
def GoodSt (P S : Nat) (acc : List (List FileHashInfo)) (unfilled : Nat) : Prop :=
  (acc = [] ∧ unfilled = 0 ∧ S = 0) ∨
  (∃ h tl, acc = h :: tl ∧ unfilled < P ∧ pieceSumR h + unfilled = P ∧
    (∀ p ∈ tl, pieceSumR p = P) ∧ planSum acc = S)

/-! ## Key-segment decompositions of the encoders (for the ordering claim)

`topSegs`, `infoSegs` and `fileSegs` list the `(key, encoded value)`
segments each encoder emits, in emission order; the linking equations
proved below identify the encoder output with the concatenation of these
segments, so facts about the key sequences are facts about the byte
streams. -/

/-- Strict lexicographic byte order (the ascending-key requirement). -/
def bytesLtB : List Nat → List Nat → Bool
  | [], [] => false
  | [], _ :: _ => true
  | _ :: _, [] => false
  | a :: as, b :: bs => if a < b then true else if b < a then false else bytesLtB as bs

/-- Key/value segments of `TrFile::bencode`. -/
def fileSegs (f : TrFile) : List (List Nat × List Nat) :=
  [(lengthKey, bencodeUint f.length), (pathKey, bencodeStringList f.path)]

/-- Key/value segments of `TrInfo::bencode`, in emission order. -/
def infoSegs (i : TrInfo) : List (List Nat × List Nat) :=
  (match i.files with
    | some fs => [(filesKey, bencodeFileList fs)]
    | none => []) ++
  (match i.length with
    | some l => [(lengthKey, bencodeUint l)]
    | none => []) ++
  (match i.name with
    | some n => [(nameKey, bencodeString n)]
    | none => []) ++
  [(pieceLengthKey, bencodeUint i.piece_length)] ++
  (if i.pieces.isEmpty then [] else [(piecesKey, bencodeBytes i.pieces)]) ++
  (if i.privateFlag then [(privateKey, bencodeUint 1)] else [])

/-- Key/value segments of `Torrent::bencode`, in emission order (`hash`
comes last, after `info`). -/
def topSegs (t : Torrent) : List (List Nat × List Nat) :=
  (match t.announce with
    | some a => [(announceKey, bencodeString a)]
    | none => []) ++
  (match t.announce_list with
    | some tiers =>
      [(announceListKey,
        108 :: tiers.flatMap (fun tier => 108 :: tier.flatMap bencodeString ++ [101]) ++
          [101])]
    | none => []) ++
  (match t.comment with
    | some c => [(commentKey, bencodeString c)]
    | none => []) ++
  (match t.created_by with
    | some c => [(createdByKey, bencodeString c)]
    | none => []) ++
  (match t.creation_date with
    | some d => [(creationDateKey, bencodeInt d)]
    | none => []) ++
  (match t.encoding with
    | some e => [(encodingKey, bencodeString e)]
    | none => []) ++
  (match t.info with
    | some i => [(infoKey, i.bencode)]
    | none => []) ++
  (match t.hash with
    | some h => [(hashKey, bencodeString h)]
    | none => [])

/-- Flattening of key/value segments into the dictionary body. -/
def segsBytes (segs : List (List Nat × List Nat)) : List Nat :=
  segs.flatMap (fun s => bencodeString s.1 ++ s.2)

/-- The canonical top-level key sequence the encoder follows. -/
def canonTopKeys : List (List Nat) :=
  [announceKey, announceListKey, commentKey, createdByKey, creationDateKey,
    encodingKey, infoKey, hashKey]

/-- The canonical `info` key sequence the encoder follows. -/
def canonInfoKeys : List (List Nat) :=
  [filesKey, lengthKey, nameKey, pieceLengthKey, piecesKey, privateKey]

/-! ## Concrete exhibits used by the claims -/

/-- A metainfo input whose `info` has `piece length` and `pieces` (of
length 1) but neither `files` nor `length`:
`d4:infod12:piece lengthi1e6:pieces1:Xee`. -/
def c4Input : List Nat :=
  [100, 52, 58, 105, 110, 102, 111, 100, 49, 50, 58, 112, 105, 101, 99, 101,
    32, 108, 101, 110, 103, 116, 104, 105, 49, 101, 54, 58, 112, 105, 101, 99,
    101, 115, 49, 58, 88, 101, 101]

/-- The torrent `read_torrent` produces for `c4Input`. -/
def c4Torrent : Torrent :=
  { announce := none, announce_list := none, comment := none,
    created_by := none, creation_date := none, encoding := none, hash := none,
    info := some
      { files := none, length := none, name := none, piece_length := 1,
        pieces := [88], privateFlag := false } }

/-- An accepted metainfo input with a non-canonically ordered `info`
dictionary and no top-level `hash` key:
`d4:infod6:pieces20:AAAA…A12:piece lengthi16384e4:name1:aee`. -/
def c1Input : List Nat :=
  [100, 52, 58, 105, 110, 102, 111, 100, 54, 58, 112, 105, 101, 99, 101, 115,
    50, 48, 58, 65, 65, 65, 65, 65, 65, 65, 65, 65, 65, 65, 65, 65, 65, 65,
    65, 65, 65, 65, 65, 49, 50, 58, 112, 105, 101, 99, 101, 32, 108, 101, 110,
    103, 116, 104, 105, 49, 54, 51, 56, 52, 101, 52, 58, 110, 97, 109, 101,
    49, 58, 97, 101, 101]

/-- The torrent `read_torrent` produces for `c1Input`. -/
def c1Torrent : Torrent :=
  { announce := none, announce_list := none, comment := none,
    created_by := none, creation_date := none, encoding := none, hash := none,
    info := some
      { files := none, length := none, name := some [97], piece_length := 16384,
        pieces := List.replicate 20 65, privateFlag := false } }

/-- The 22-byte input `18446744073709551615:x`: a byte-string token whose
declared length is `usize::MAX`, driving `let end = *pos + len;` past
`usize::MAX` so the source panics. -/
def c10Input : List Nat :=
  [49, 56, 52, 52, 54, 55, 52, 52, 48, 55, 51, 55, 48, 57, 53, 53, 49, 54,
    49, 53, 58, 120]

/-- The file list refuting the planner/verifier map equality: one 1-byte
file followed by a zero-byte file. -/
def c2Files : List TrFile :=
  [⟨1, []⟩, ⟨0, []⟩]

/-- `TrInfo::new` for a zero-byte single file named `f` with
`piece_length = 65536`. -/
def c6Info : TrInfo :=
  trInfoNewSingle [102] [] 65536 false

/-- The pre-creation torrent of the create path (`Torrent::new` output with
a creator string and encoding, as `main.rs` builds it). -/
def c6Base : Torrent :=
  { announce := none, announce_list := none, comment := none,
    created_by := some [84, 111, 114, 114, 101, 110, 116, 85, 116, 105, 108,
      115, 82],
    creation_date := none, encoding := some [85, 84, 70, 45, 56],
    hash := none, info := none }

/-- The created zero-byte-file torrent. -/
def c6Torrent : Torrent :=
  createTorrentStep c6Base c6Info

/-- Base torrent of the `hash`-field exhibit (no `hash` before creation). -/
def c9Base : Torrent :=
  { announce := some [117, 100, 112], announce_list := none, comment := none,
    created_by := none, creation_date := none, encoding := none,
    hash := none, info := none }

/-- Info block of the `hash`-field exhibit: single 4-byte file. -/
def c9Info : TrInfo :=
  trInfoNewSingle [103] [10, 20, 30, 40] 16384 false

/-- A round-trip-shaped torrent with every optional present and a `hash`
field, for the key-ordering exhibit. -/
def c5T : Torrent :=
  { announce := some [117], announce_list := some [[[117]]],
    comment := some [99], created_by := some [120],
    creation_date := some 7, encoding := some [85, 84, 70, 45, 56],
    hash := some [97, 98],
    info := some
      { files := some [⟨1, [[102]]⟩], length := none, name := some [110],
        piece_length := 16384, pieces := List.replicate 20 0,
        privateFlag := true } }

/-- Piece map of the I/O-failure exhibits: piece 0 reads file 0, piece 1
reads file 1. -/
def c8Info : List (List FileHashInfo) :=
  [[⟨0, 0, 4⟩], [⟨1, 0, 4⟩]]

/-- Oracle that fails on file 0 (so at piece 0) with a plain OS message. -/
def oracleA : ReadOracle :=
  fun fi _ _ => if fi = 0 then .error "permission denied" else .ok [0, 0, 0, 0]

/-- Oracle that fails on file 1 (so at piece 1) with the same message. -/
def oracleB : ReadOracle :=
  fun fi _ _ => if fi = 1 then .error "permission denied" else .ok [0, 0, 0, 0]

/-- Oracle that always succeeds, for the determinism witness. -/
def oracleOk : ReadOracle :=
  fun _ _ _ => .ok [1, 2]

set_option maxRecDepth 1000000

deriving instance DecidableEq for Except

theorem pieceSumR_nil : pieceSumR [] = 0 := rfl

theorem planSum_nil : planSum [] = 0 := rfl

theorem pieceSumR_cons (x : FileHashInfo) (p : List FileHashInfo) :
    pieceSumR (x :: p) = x.length + pieceSumR p := by
  simp [pieceSumR]

theorem planSum_cons (p : List FileHashInfo) (ps : List (List FileHashInfo)) :
    planSum (p :: ps) = pieceSumR p + planSum ps := by
  simp [planSum]

theorem planSum_of_all {P : Nat} : ∀ {l : List (List FileHashInfo)},
    (∀ p ∈ l, pieceSumR p = P) → planSum l = P * l.length := by
  intro l
  induction l with
  | nil => intro _h; simp [planSum]
  | cons p ps ih =>
    intro h
    rw [planSum_cons, h p (by simp), ih (fun q hq => h q (by simp [hq])),
      List.length_cons, Nat.mul_succ]
    omega

theorem fillFile_spec (fi P : Nat) (hP : 0 < P) :
    ∀ fuel rest fo unfilled acc S acc2 unf2,
      fillFile fi P fuel rest fo unfilled acc = (acc2, unf2) →
      rest ≤ fuel → GoodSt P S acc unfilled →
      GoodSt P (S + rest) acc2 unf2 ∧
      (∀ x, (∃ p ∈ acc, x ∈ p) → ∃ q ∈ acc2, x ∈ q) ∧
      (0 < rest → ∃ q ∈ acc2, ∃ x ∈ q, x.file_index = fi) := by
  intro fuel
  induction fuel with
  | zero =>
    intro rest fo unfilled acc S acc2 unf2 heq hle hg
    have hr : rest = 0 := Nat.le_zero.mp hle
    subst hr
    simp only [fillFile] at heq
    cases heq
    refine ⟨by simpa using hg, fun x hx => hx, by omega⟩
  | succ fuel ih =>
    intro rest fo unfilled acc S acc2 unf2 heq hle hg
    by_cases hr : rest = 0
    · subst hr
      simp only [fillFile, if_pos rfl] at heq
      cases heq
      refine ⟨by simpa using hg, fun x hx => hx, by omega⟩
    · rcases Nat.eq_zero_or_pos unfilled with hu | hu
      · -- a fresh piece is opened
        subst hu
        have hstep : fillFile fi P (fuel + 1) rest fo 0 acc =
            fillFile fi P fuel (rest - min rest P) (fo + min rest P)
              (P - min rest P) ([⟨fi, fo, min rest P⟩] :: acc) := by
          simp [fillFile, hr]
        rw [hstep] at heq
        have husedpos : 0 < min rest P := by omega
        have husedle : min rest P ≤ rest := Nat.min_le_left ..
        have hg2 : GoodSt P (S + min rest P) ([⟨fi, fo, min rest P⟩] :: acc)
            (P - min rest P) := by
          rcases hg with ⟨ha, _hu0, hS⟩ | ⟨h, tl, ha, _hlt, hsum, htl, hps⟩
          · subst ha; subst hS
            refine Or.inr ⟨_, _, rfl, by omega, ?_, by simp, ?_⟩
            · simp [pieceSumR] <;> omega
            · simp [planSum, pieceSumR] <;> omega
          · subst ha
            refine Or.inr ⟨_, _, rfl, by omega, ?_, ?_, ?_⟩
            · simp [pieceSumR] <;> omega
            · intro p hp
              rcases List.mem_cons.mp hp with hp | hp
              · subst hp; omega
              · exact htl p hp
            · have hps' : pieceSumR h + planSum tl = S := by
                rw [planSum_cons] at hps; omega
              simp only [planSum_cons, pieceSumR_cons, pieceSumR_nil]
              omega
        obtain ⟨g3, mono3, _app3⟩ := ih (rest - min rest P) (fo + min rest P)
          (P - min rest P) ([⟨fi, fo, min rest P⟩] :: acc) (S + min rest P)
          acc2 unf2 heq (by omega) hg2
        refine ⟨?_, ?_, ?_⟩
        · have hrw : S + min rest P + (rest - min rest P) = S + rest := by omega
          rwa [hrw] at g3
        · intro x hx
          rcases hx with ⟨p, hp, hxp⟩
          exact mono3 x ⟨p, List.mem_cons_of_mem _ hp, hxp⟩
        · intro _
          exact mono3 ⟨fi, fo, min rest P⟩ ⟨[⟨fi, fo, min rest P⟩], by simp, by simp⟩
            |>.imp (fun q hq => ⟨hq.1, ⟨fi, fo, min rest P⟩, hq.2, rfl⟩)
      · -- the current piece is topped up
        have hu' : unfilled ≠ 0 := by omega
        rcases hg with ⟨_, hu0, _⟩ | ⟨h, tl, ha, hlt, hsum, htl, hps⟩
        · omega
        subst ha
        have hstep : fillFile fi P (fuel + 1) rest fo unfilled (h :: tl) =
            fillFile fi P fuel (rest - min rest unfilled) (fo + min rest unfilled)
              (unfilled - min rest unfilled) ((⟨fi, fo, min rest unfilled⟩ :: h) :: tl) := by
          simp [fillFile, hr, hu']
        rw [hstep] at heq
        have husedpos : 0 < min rest unfilled := by omega
        have hg2 : GoodSt P (S + min rest unfilled)
            ((⟨fi, fo, min rest unfilled⟩ :: h) :: tl)
            (unfilled - min rest unfilled) := by
          refine Or.inr ⟨_, _, rfl, by omega, ?_, htl, ?_⟩
          · rw [pieceSumR_cons]; dsimp only <;> omega
          · have hps' : pieceSumR h + planSum tl = S := by
              rw [planSum_cons] at hps; omega
            rw [planSum_cons, pieceSumR_cons]; dsimp only <;> omega
        obtain ⟨g3, mono3, _app3⟩ := ih (rest - min rest unfilled)
          (fo + min rest unfilled) (unfilled - min rest unfilled)
          ((⟨fi, fo, min rest unfilled⟩ :: h) :: tl) (S + min rest unfilled)
          acc2 unf2 heq (by omega) hg2
        refine ⟨?_, ?_, ?_⟩
        · have hrw : S + min rest unfilled + (rest - min rest unfilled) = S + rest := by
            omega
          rwa [hrw] at g3
        · intro x hx
          rcases hx with ⟨p, hp, hxp⟩
          rcases List.mem_cons.mp hp with hp | hp
          · subst hp
            exact mono3 x
              ⟨⟨fi, fo, min rest unfilled⟩ :: p, by simp,
                List.mem_cons_of_mem _ hxp⟩
          · exact mono3 x ⟨p, List.mem_cons_of_mem _ hp, hxp⟩
        · intro _
          exact mono3 ⟨fi, fo, min rest unfilled⟩
              ⟨⟨fi, fo, min rest unfilled⟩ :: h, by simp, by simp⟩
            |>.imp (fun q hq => ⟨hq.1, ⟨fi, fo, min rest unfilled⟩, hq.2, rfl⟩)

theorem calcAux_spec (P : Nat) (hP : 0 < P) :
    ∀ entries unfilled acc S acc2 unf2,
      calcAux P entries unfilled acc = (acc2, unf2) →
      GoodSt P S acc unfilled →
      GoodSt P (S + (entries.map (fun e => e.2.length)).sum) acc2 unf2 ∧
      (∀ x, (∃ p ∈ acc, x ∈ p) → ∃ q ∈ acc2, x ∈ q) ∧
      (∀ e ∈ entries, 0 < e.2.length → ∃ q ∈ acc2, ∃ x ∈ q, x.file_index = e.1) := by
  intro entries
  induction entries with
  | nil =>
    intro unfilled acc S acc2 unf2 heq hg
    simp only [calcAux] at heq
    cases heq
    refine ⟨by simpa using hg, fun x hx => hx, by simp⟩
  | cons e rest ih =>
    intro unfilled acc S acc2 unf2 heq hg
    obtain ⟨fi, f⟩ := e
    rcases hfe : fillFile fi P (f.length + 1) f.length 0 unfilled acc with ⟨accm, unfm⟩
    rw [calcAux, hfe] at heq
    obtain ⟨g1, mono1, app1⟩ :=
      fillFile_spec fi P hP (f.length + 1) f.length 0 unfilled acc S accm unfm hfe
        (Nat.le_succ _) hg
    obtain ⟨g2, mono2, app2⟩ := ih unfm accm (S + f.length) acc2 unf2 heq g1
    refine ⟨?_, fun x hx => mono2 x (mono1 x hx), ?_⟩
    · have hrw : S + f.length + (rest.map (fun e => e.2.length)).sum =
          S + ((f.length + (rest.map (fun e => e.2.length)).sum)) := by omega
      rw [hrw] at g2
      simpa using g2
    · intro e he hlen
      rcases List.mem_cons.mp he with he | he
      · subst he
        obtain ⟨q, hq, x, hxq, hxi⟩ := app1 hlen
        obtain ⟨q2, hq2, hxq2⟩ := mono2 x ⟨q, hq, hxq⟩
        exact ⟨q2, hq2, x, hxq2, hxi⟩
      · exact app2 e he hlen

theorem pieceSumR_reverse (p : List FileHashInfo) :
    pieceSumR p.reverse = pieceSumR p := by
  unfold pieceSumR
  rw [List.map_reverse, List.sum_reverse]

theorem planSum_proj (acc : List (List FileHashInfo)) :
    planSum ((acc.map List.reverse).reverse) = planSum acc := by
  unfold planSum
  rw [List.map_reverse, List.sum_reverse, List.map_map]
  congr 1
  exact List.map_congr_left fun p _ => pieceSumR_reverse p

theorem dropLast_reverse_eq {α : Type} (l : List α) :
    l.reverse.dropLast = l.tail.reverse := by
  cases l with
  | nil => simp
  | cons h tl => simp [List.reverse_cons]

theorem mem_proj {q : List FileHashInfo} {acc : List (List FileHashInfo)} :
    q ∈ (acc.map List.reverse).reverse ↔ ∃ p ∈ acc, p.reverse = q := by
  rw [List.mem_reverse, List.mem_map]

/-- C3 (confirmed): for every file list and positive piece length, the planner covers
exactly the total byte count, all pieces but the last are exactly full, the
piece count is the ceiling `(S + P - 1) / P` of `S / P`, and every file of
nonzero length appears in some piece. -/
theorem c3_planner (files : List TrFile) (P : Nat) (hP : 0 < P) :
    planSum (calcPieceFileInfo files P) = sumLens files ∧
    (∀ p ∈ (calcPieceFileInfo files P).dropLast, pieceSumR p = P) ∧
    (calcPieceFileInfo files P).length = (sumLens files + P - 1) / P ∧
    (∀ fi : Fin files.length, 0 < (files.get fi).length →
      ∃ p ∈ calcPieceFileInfo files P, ∃ x ∈ p, x.file_index = fi.val) := by
  rcases hca : calcAux P files.enum 0 [] with ⟨accF, unfF⟩
  have hg0 : GoodSt P 0 [] 0 := Or.inl ⟨rfl, rfl, rfl⟩
  obtain ⟨hgF, _hmono, happ⟩ :=
    calcAux_spec P hP files.enum 0 [] 0 accF unfF hca hg0
  have hsl : ((files.enum.map (fun e => e.2.length)).sum) = sumLens files := by
    unfold sumLens
    rw [show (fun e : Nat × TrFile => e.2.length) =
      (fun f : TrFile => f.length) ∘ Prod.snd from rfl, ← List.map_map,
      List.enum_map_snd]
  rw [Nat.zero_add, hsl] at hgF
  have hplan : calcPieceFileInfo files P = (accF.map List.reverse).reverse := by
    unfold calcPieceFileInfo
    rw [hca]
  refine ⟨?_, ?_, ?_, ?_⟩
  · rw [hplan, planSum_proj]
    rcases hgF with ⟨ha, _, hS⟩ | ⟨h, tl, ha, _, _, _, hps⟩
    · subst ha; rw [hS]; rfl
    · rw [hps]
  · intro p hp
    rw [hplan, dropLast_reverse_eq] at hp
    rcases hgF with ⟨ha, _, _⟩ | ⟨h, tl, ha, _, _, htl, _⟩
    · subst ha; exact absurd hp (by simp)
    · subst ha
      simp only [List.map_cons, List.tail_cons] at hp
      rcases (by simpa [List.mem_reverse, List.mem_map] using hp :
        ∃ q ∈ tl, q.reverse = p) with ⟨q, hq, hqp⟩
      rw [← hqp, pieceSumR_reverse]
      exact htl q hq
  · rw [hplan]
    simp only [List.length_reverse, List.length_map]
    rcases hgF with ⟨ha, _, hS⟩ | ⟨h, tl, ha, hlt, hsum, htl, hps⟩
    · subst ha
      rw [hS]
      simp [Nat.div_eq_of_lt (by omega : P - 1 < P)]
    · subst ha
      have htlsum : planSum tl = P * tl.length := planSum_of_all htl
      have hS : pieceSumR h + planSum tl = sumLens files := by
        rw [planSum_cons] at hps; omega
      have hlen1 : P * (tl.length + 1) = P * tl.length + P := Nat.mul_succ ..
      have hceil : sumLens files + P - 1 =
          P * (tl.length + 1) + (P - 1 - unfF) := by omega
      rw [hceil, Nat.mul_add_div hP, Nat.div_eq_of_lt (by omega : P - 1 - unfF < P)]
      simp
  · intro fi hlen
    have hlt : fi.val < files.enum.length := by simpa using fi.isLt
    have hmem : (fi.val, files.get fi) ∈ files.enum := by
      have h1 : files.enum.get ⟨fi.val, hlt⟩ = (fi.val, files.get fi) := by
        simp [List.get_eq_getElem, List.getElem_enum]
      rw [← h1]
      exact List.get_mem ..
    obtain ⟨q, hq, x, hxq, hxi⟩ := happ (fi.val, files.get fi) hmem hlen
    refine ⟨q.reverse, ?_, x, by simpa using hxq, hxi⟩
    rw [hplan, mem_proj]
    exact ⟨q, hq, rfl⟩

theorem fillFile_zero_rest (fi P fo u : Nat) (acc : List (List FileHashInfo)) :
    ∀ fuel, fillFile fi P fuel 0 fo u acc = (acc, u) := by
  intro fuel
  cases fuel with
  | zero => rfl
  | succ fuel => simp [fillFile]

theorem foldl_range_prepend {α : Type} (f : Nat → α) :
    ∀ (n : Nat) (acc : List α),
      (List.range n).foldl (fun a i => f i :: a) acc =
        ((List.range n).map f).reverse ++ acc := by
  intro n
  induction n with
  | zero => intro acc; simp
  | succ n ih =>
    intro acc
    rw [List.range_succ, List.foldl_append, ih]
    simp

theorem fillFile_single (fi P : Nat) (hP : 0 < P) :
    ∀ k r fo acc fuel, r < P → k * P + r + 1 ≤ fuel →
      fillFile fi P fuel (k * P + r) fo 0 acc =
        ((if 0 < r then [[⟨fi, fo + P * k, r⟩]] else []) ++
          ((List.range k).map (fun i => [⟨fi, fo + P * i, P⟩])).reverse ++ acc,
          if 0 < r then P - r else 0) := by
  intro k
  induction k with
  | zero =>
    intro r fo acc fuel hr hfuel
    have h1 : 0 * P + r = r := by omega
    rw [h1]
    rcases Nat.eq_zero_or_pos r with h0 | h0
    · subst h0
      simp [fillFile_zero_rest]
    · obtain ⟨fuel2, rfl⟩ : ∃ fuel2, fuel = fuel2 + 1 := ⟨fuel - 1, by omega⟩
      have hstep : fillFile fi P (fuel2 + 1) r fo 0 acc =
          fillFile fi P fuel2 0 (fo + r) (P - r) ([⟨fi, fo, r⟩] :: acc) := by
        have hmin : min r P = r := by omega
        have hne : ¬ r = 0 := by omega
        simp [fillFile, hne, hmin]
      rw [hstep, fillFile_zero_rest]
      simp [h0]
  | succ k ih =>
    intro r fo acc fuel hr hfuel
    have hL : (k + 1) * P + r = P + (k * P + r) := by ring
    rw [hL] at hfuel ⊢
    obtain ⟨fuel2, rfl⟩ : ∃ fuel2, fuel = fuel2 + 1 := ⟨fuel - 1, by omega⟩
    have hstep : fillFile fi P (fuel2 + 1) (P + (k * P + r)) fo 0 acc =
        fillFile fi P fuel2 (k * P + r) (fo + P) 0 ([⟨fi, fo, P⟩] :: acc) := by
      have hne : ¬ P + (k * P + r) = 0 := by omega
      have hmin : min (P + (k * P + r)) P = P := by omega
      simp [fillFile, hne, hmin]
    rw [hstep, ih r (fo + P) ([⟨fi, fo, P⟩] :: acc) fuel2 hr (by omega)]
    have hshift : (List.range (k + 1)).map
        (fun i => ([⟨fi, fo + P * i, P⟩] : List FileHashInfo)) =
        [⟨fi, fo, P⟩] ::
          (List.range k).map (fun i => [⟨fi, fo + P + P * i, P⟩]) := by
      rw [List.range_succ_eq_map, List.map_cons, List.map_map]
      refine congrArg₂ _ (by simp) ?_
      refine List.map_congr_left fun i _ => ?_
      have h2 : fo + P * (i + 1) = fo + P + P * i := by ring
      simp [Function.comp, h2]
    rw [hshift]
    have hoff : fo + P + P * k = fo + P * (k + 1) := by ring
    rw [hoff]
    simp [List.reverse_cons, List.append_assoc]

theorem calc_single (L P : Nat) (path : List (List Nat)) (hP : 0 < P) :
    calcPieceFileInfo [⟨L, path⟩] P =
      ((List.range (L / P)).map (fun i => [⟨0, P * i, P⟩])) ++
        (if 0 < L % P then [[⟨0, P * (L / P), L % P⟩]] else []) := by
  unfold calcPieceFileInfo
  have henum : ([⟨L, path⟩] : List TrFile).enum = [(0, ⟨L, path⟩)] := rfl
  rw [henum]
  have hdm := Nat.div_add_mod L P
  have hdm2 : L / P * P + L % P = L := by rw [Nat.mul_comm] at hdm; exact hdm
  simp only [calcAux]
  conv_lhs => rw [show L = L / P * P + L % P from hdm2.symm]
  rw [fillFile_single 0 P hP (L / P) (L % P) 0 [] (L / P * P + L % P + 1)
    (Nat.mod_lt _ hP) (le_refl _)]
  simp only [calcAux]
  rcases Nat.eq_zero_or_pos (L % P) with hr | hr
  · simp [hr, List.map_reverse, List.map_map, List.reverse_reverse,
      Function.comp]
  · simp [hr, Nat.pos_iff_ne_zero.mp hr, List.map_append, List.reverse_append,
      List.map_reverse, List.map_map, List.reverse_reverse, Function.comp]

theorem inline_single (L P : Nat) (path : List (List Nat)) (hP : 0 < P) :
    inlinePieceMap [⟨L, path⟩] P =
      ((List.range (L / P)).map (fun i => [⟨0, P * i, P⟩])) ++
        (if 0 < L % P then [[⟨0, P * (L / P), L % P⟩]] else []) := by
  unfold inlinePieceMap
  have henum : ([⟨L, path⟩] : List TrFile).enum = [(0, ⟨L, path⟩)] := rfl
  rw [henum]
  simp only [List.foldl_cons, List.foldl_nil, inlineStep]
  rw [if_neg (lt_irrefl 0)]
  simp only [inlineTail, if_neg (lt_irrefl 0), Nat.add_zero, Nat.zero_add,
    Nat.sub_zero, Nat.mod_self, Nat.sub_self]
  rw [foldl_range_prepend]
  rcases Nat.eq_zero_or_pos (L % P) with hr | hr
  · rw [if_neg (by omega : ¬ 0 < L % P)]
    simp [hr, List.map_reverse, List.map_map, List.reverse_reverse,
      Function.comp]
  · rw [if_pos hr]
    simp [hr, List.map_append, List.reverse_append, List.map_reverse,
      List.map_map, List.reverse_reverse, Function.comp]

/-- C2 (corrected): the verifier/planner map equality does hold on
single-file lists — the inline map of `TrInfo::verify` agrees with
`calc_piece_file_info` there (the `verify_tr_files` verifier of
`tr_info.rs` re-hashes against `calc_piece_file_info` itself by
construction).  On multi-file lists the maps differ, see
`c2_counterexample`. -/
theorem c2_amended (L P : Nat) (path : List (List Nat)) (hP : 0 < P) :
    inlinePieceMap [⟨L, path⟩] P = calcPieceFileInfo [⟨L, path⟩] P := by
  rw [calc_single L P path hP, inline_single L P path hP]

theorem parseBencode_total : ∀ fuel : Nat,
    (∀ (tot : Nat) (data : List Nat), 2 * data.length + 1 ≤ fuel →
      (parseBencode fuel tot data).isSpin = false ∧
      (∀ v rest, parseBencode fuel tot data = .ok v rest →
        rest.length < data.length)) ∧
    (∀ (tot : Nat) (data : List Nat) (acc : List Bencode),
      2 * data.length + 2 ≤ fuel →
      (parseListItems fuel tot data acc).isSpin = false ∧
      (∀ v rest, parseListItems fuel tot data acc = .ok v rest →
        rest.length < data.length)) ∧
    (∀ (tot : Nat) (data : List Nat) (acc : List (List Nat × Bencode)),
      2 * data.length + 2 ≤ fuel →
      (parseDictItems fuel tot data acc).isSpin = false ∧
      (∀ v rest, parseDictItems fuel tot data acc = .ok v rest →
        rest.length < data.length)) := by
  intro fuel
  induction fuel with
  | zero => exact ⟨fun tot data h => by omega, fun tot data acc h => by omega,
      fun tot data acc h => by omega⟩
  | succ fuel ih =>
    obtain ⟨ihP, ihL, ihD⟩ := ih
    refine ⟨?_, ?_, ?_⟩
    · -- parseBencode
      intro tot data hfuel
      cases data with
      | nil =>
        constructor
        · rfl
        · intro v rest h
          cases h
      | cons b rest =>
        by_cases h105 : b = 105
        · subst h105
          constructor
          · simp only [parseBencode]
            repeat' split
            all_goals first | rfl | omega
          · intro v rest2 h
            simp only [parseBencode] at h
            repeat' split at h
            all_goals try omega
            all_goals cases h
            all_goals simp [List.length_drop]
            all_goals omega
        · by_cases h108 : b = 108
          · subst h108
            have hred : parseBencode (fuel + 1) tot (108 :: rest) =
                parseListItems fuel tot rest [] := rfl
            rw [hred]
            have hle : 2 * rest.length + 2 ≤ fuel := by
              simp [List.length_cons] at hfuel; omega
            obtain ⟨hs, hb⟩ := ihL tot rest [] hle
            exact ⟨hs, fun v rest2 h => Nat.lt_trans (hb v rest2 h)
              (by simp [List.length_cons])⟩
          · by_cases h100 : b = 100
            · subst h100
              have hred : parseBencode (fuel + 1) tot (100 :: rest) =
                  parseDictItems fuel tot rest [] := rfl
              rw [hred]
              have hle : 2 * rest.length + 2 ≤ fuel := by
                simp [List.length_cons] at hfuel; omega
              obtain ⟨hs, hb⟩ := ihD tot rest [] hle
              exact ⟨hs, fun v rest2 h => Nat.lt_trans (hb v rest2 h)
                (by simp [List.length_cons])⟩
            · by_cases hdig : 48 ≤ b ∧ b ≤ 57
              · have hdigB : ((48 ≤ b && b ≤ 57) : Bool) = true := by
                  simp only [Bool.and_eq_true, decide_eq_true_eq]
                  exact hdig
                constructor
                · simp only [parseBencode, if_neg h105, if_neg h108,
                    if_neg h100, if_pos hdigB]
                  repeat' split
                  all_goals first | rfl | omega
                · intro v rest2 h
                  simp only [parseBencode, if_neg h105, if_neg h108,
                    if_neg h100, if_pos hdigB] at h
                  repeat' split at h
                  all_goals try omega
                  all_goals cases h
                  all_goals simp [List.length_drop]
                  all_goals omega
              · have hdigB : ¬ (((48 ≤ b && b ≤ 57) : Bool) = true) := by
                  simp only [Bool.and_eq_true, decide_eq_true_eq]
                  exact hdig
                simp only [parseBencode, if_neg h105, if_neg h108,
                  if_neg h100, if_neg hdigB]
                exact ⟨rfl, fun v rest2 h => by cases h⟩
    · -- parseListItems
      intro tot data acc hfuel
      have hleP : 2 * data.length + 1 ≤ fuel := by omega
      obtain ⟨hsP, hbP⟩ := ihP tot data hleP
      simp only [parseListItems]
      split
      · constructor
        · rfl
        · intro v rest2 h
          cases h
          simp
      · cases hres : parseBencode fuel tot data with
        | ok v1 rest1 =>
          have hlen1 : rest1.length < data.length := hbP v1 rest1 hres
          have hle2 : 2 * rest1.length + 2 ≤ fuel := by omega
          obtain ⟨hs2, hb2⟩ := ihL tot rest1 (v1 :: acc) hle2
          exact ⟨hs2, fun v rest2 h => Nat.lt_trans (hb2 v rest2 h) hlen1⟩
        | fail e =>
          exact ⟨rfl, fun v rest2 h => by cases h⟩
        | crash =>
          exact ⟨rfl, fun v rest2 h => by cases h⟩
        | spin =>
          rw [hres] at hsP
          cases hsP
    · -- parseDictItems
      intro tot data acc hfuel
      have hleP : 2 * data.length + 1 ≤ fuel := by omega
      obtain ⟨hsP, hbP⟩ := ihP tot data hleP
      simp only [parseDictItems]
      split
      · constructor
        · rfl
        · intro v rest2 h
          cases h
          simp
      · cases hres : parseBencode fuel tot data with
        | ok v1 rest1 =>
          have hlen1 : rest1.length < data.length := hbP v1 rest1 hres
          cases v1 with
          | bytes kb =>
            by_cases hutf : utf8Valid kb
            · dsimp only
              rw [if_pos hutf]
              have hleP2 : 2 * rest1.length + 1 ≤ fuel := by omega
              obtain ⟨hsP2, hbP2⟩ := ihP tot rest1 hleP2
              cases hres2 : parseBencode fuel tot rest1 with
              | ok v2 rest2 =>
                have hlen2 : rest2.length < rest1.length := hbP2 v2 rest2 hres2
                have hle3 : 2 * rest2.length + 2 ≤ fuel := by omega
                obtain ⟨hs3, hb3⟩ := ihD tot rest2 (dinsert kb v2 acc) hle3
                exact ⟨hs3, fun v rest3 h =>
                  Nat.lt_trans (Nat.lt_trans (hb3 v rest3 h) hlen2) hlen1⟩
              | fail e2 =>
                exact ⟨rfl, fun v rest3 h => by cases h⟩
              | crash =>
                exact ⟨rfl, fun v rest3 h => by cases h⟩
              | spin =>
                rw [hres2] at hsP2
                cases hsP2
            · dsimp only
              rw [if_neg hutf]
              exact ⟨rfl, fun v rest3 h => by cases h⟩
          | int n => exact ⟨rfl, fun v rest3 h => by cases h⟩
          | uint n => exact ⟨rfl, fun v rest3 h => by cases h⟩
          | list xs => exact ⟨rfl, fun v rest3 h => by cases h⟩
          | dict m => exact ⟨rfl, fun v rest3 h => by cases h⟩
        | fail e =>
          exact ⟨rfl, fun v rest2 h => by cases h⟩
        | crash =>
          exact ⟨rfl, fun v rest2 h => by cases h⟩
        | spin =>
          rw [hres] at hsP
          cases hsP

theorem bind_ok_elim {ε α β : Type} {x : Except ε α} {f : α → Except ε β} {b : β}
    (h : (x >>= f) = .ok b) : ∃ a, x = .ok a ∧ f a = .ok b := by
  cases x with
  | ok a => exact ⟨a, rfl, h⟩
  | error e => cases h

theorem getOptBytes_cases {m : List (List Nat × Bencode)} {k : List Nat}
    {o : Option (List Nat)} (h : getOptBytes m k = .ok o) :
    o = none ∨ ∃ b, dget m k = some (.bytes b) ∧ o = some b := by
  unfold getOptBytes at h
  cases hd : dget m k with
  | none => rw [hd] at h; cases h; exact Or.inl rfl
  | some v =>
    rw [hd] at h
    cases v with
    | bytes b =>
      dsimp only at h
      by_cases hu : utf8Valid b
      · rw [if_pos hu] at h
        cases h
        exact Or.inr ⟨b, rfl, rfl⟩
      · rw [if_neg hu] at h
        cases h
    | int n => cases h; exact Or.inl rfl
    | uint n => cases h; exact Or.inl rfl
    | list xs => cases h; exact Or.inl rfl
    | dict m2 => cases h; exact Or.inl rfl

theorem getInfoDict_ok {m im : List (List Nat × Bencode)}
    (h : getInfoDict m = .ok im) : dget m infoKey = some (.dict im) := by
  unfold getInfoDict at h
  cases hd : dget m infoKey with
  | none => rw [hd] at h; cases h
  | some v =>
    rw [hd] at h
    cases v with
    | dict im2 => cases h; rfl
    | int n => cases h
    | uint n => cases h
    | bytes b => cases h
    | list xs => cases h

theorem getReqInt_ok {im : List (List Nat × Bencode)} {k : List Nat}
    {msg : String} {n : Nat} (h : getReqInt im k msg = .ok n) :
    dget im k = some (.int n) := by
  unfold getReqInt at h
  cases hd : dget im k with
  | none => rw [hd] at h; cases h
  | some v =>
    rw [hd] at h
    cases v with
    | int n2 => cases h; rfl
    | uint n2 => cases h
    | bytes b => cases h
    | list xs => cases h
    | dict m2 => cases h

theorem getReqBytes_ok {im : List (List Nat × Bencode)} {k : List Nat}
    {msg : String} {b : List Nat} (h : getReqBytes im k msg = .ok b) :
    dget im k = some (.bytes b) := by
  unfold getReqBytes at h
  cases hd : dget im k with
  | none => rw [hd] at h; cases h
  | some v =>
    rw [hd] at h
    cases v with
    | bytes b2 => cases h; rfl
    | int n2 => cases h
    | uint n2 => cases h
    | list xs => cases h
    | dict m2 => cases h

theorem readTorrentDict_ok {m : List (List Nat × Bencode)} {t : Torrent}
    (h : readTorrentDict m = .ok t) :
    (∃ im, dget m infoKey = some (.dict im) ∧
      (∃ n, dget im pieceLengthKey = some (.int n)) ∧
      (∃ b, dget im piecesKey = some (.bytes b))) ∧
    (t.hash = none ∨ ∃ b, dget m hashKey = some (.bytes b) ∧ t.hash = some b) := by
  unfold readTorrentDict at h
  obtain ⟨infoDict, h1, h⟩ := bind_ok_elim h
  obtain ⟨trFiles, h2, h⟩ := bind_ok_elim h
  obtain ⟨nameB, h3, h⟩ := bind_ok_elim h
  obtain ⟨pieceLength, h4, h⟩ := bind_ok_elim h
  obtain ⟨piecesB, h5, h⟩ := bind_ok_elim h
  obtain ⟨announceB, h6, h⟩ := bind_ok_elim h
  obtain ⟨alist, h7, h⟩ := bind_ok_elim h
  obtain ⟨commentB, h8, h⟩ := bind_ok_elim h
  obtain ⟨createdByB, h9, h⟩ := bind_ok_elim h
  obtain ⟨encodingB, h10, h⟩ := bind_ok_elim h
  obtain ⟨hashB, h11, h⟩ := bind_ok_elim h
  cases h
  refine ⟨⟨infoDict, getInfoDict_ok h1, ⟨pieceLength, getReqInt_ok h4⟩,
    ⟨piecesB, getReqBytes_ok h5⟩⟩, ?_⟩
  exact getOptBytes_cases h11

theorem readTorrent_root {data : List Nat} {t : Torrent}
    (h : readTorrent data = .ok t) :
    ∃ m rest, parseBencode (parseFuel data) data.length data = .ok (.dict m) rest ∧
      readTorrentDict m = .ok t := by
  unfold readTorrent at h
  cases hp : parseBencode (parseFuel data) data.length data with
  | ok v rest =>
    rw [hp] at h
    cases v with
    | dict m => exact ⟨m, rest, rfl, h⟩
    | int n => cases h
    | uint n => cases h
    | bytes b => cases h
    | list xs => cases h
  | fail e => rw [hp] at h; cases h
  | crash => rw [hp] at h; cases h
  | spin => rw [hp] at h; cases h

/-- C1 (corrected): `read_torrent` computes no info hash from any byte
span.  Every torrent it returns carries either no `hash` at all or the
verbatim byte-string value of the input's top-level `hash` key. -/
theorem c1_hash_passthrough (data : List Nat) (t : Torrent)
    (h : readTorrent data = .ok t) :
    ∃ m rest, parseBencode (parseFuel data) data.length data = .ok (.dict m) rest ∧
      (t.hash = none ∨ ∃ b, dget m hashKey = some (.bytes b) ∧ t.hash = some b) := by
  obtain ⟨m, rest, hp, hd⟩ := readTorrent_root h
  exact ⟨m, rest, hp, (readTorrentDict_ok hd).2⟩

theorem c1_hash_passthrough_witness :
    readTorrent c1Input = Except.ok c1Torrent ∧
    (∃ m rest,
      parseBencode (parseFuel c1Input) c1Input.length c1Input = .ok (.dict m) rest ∧
      (c1Torrent.hash = none ∨
        ∃ b, dget m hashKey = some (.bytes b) ∧ c1Torrent.hash = some b)) :=
  ⟨by decide, c1_hash_passthrough c1Input c1Torrent (by decide)⟩

/-- C1 counterexample: `c1Input` is accepted, its decoded top level has no
`hash` key, and the returned torrent's `hash` is `none` — no SHA-1 of the
`info` byte span (nor of anything else) is attached at decode time. -/
theorem c1_counterexample :
    readTorrent c1Input = Except.ok c1Torrent ∧
    c1Torrent.hash = none ∧
    (match parseBencode (parseFuel c1Input) c1Input.length c1Input with
      | .ok (.dict m) _ => (dget m hashKey).isNone
      | _ => false) = true :=
  ⟨by decide, by decide, by decide⟩

/-- C4 (corrected): when `read_torrent` returns a torrent, the decoded
`info` dictionary did contain `piece length` as a nonnegative integer and
`pieces` as a byte string; these (with the structural checks) are the only
`info` validations — there is no exactly-one-of-`files`/`length` check and
no divisibility-by-20 check. -/
theorem c4_required_fields (data : List Nat) (t : Torrent)
    (h : readTorrent data = .ok t) :
    ∃ m rest im,
      parseBencode (parseFuel data) data.length data = .ok (.dict m) rest ∧
      dget m infoKey = some (.dict im) ∧
      (∃ n, dget im pieceLengthKey = some (.int n)) ∧
      (∃ b, dget im piecesKey = some (.bytes b)) := by
  obtain ⟨m, rest, hp, hd⟩ := readTorrent_root h
  obtain ⟨⟨im, hi, hn, hb⟩, _⟩ := readTorrentDict_ok hd
  exact ⟨m, rest, im, hp, hi, hn, hb⟩

theorem c4_required_fields_witness :
    readTorrent c4Input = Except.ok c4Torrent ∧
    (∃ m rest im,
      parseBencode (parseFuel c4Input) c4Input.length c4Input = .ok (.dict m) rest ∧
      dget m infoKey = some (.dict im) ∧
      (∃ n, dget im pieceLengthKey = some (.int n)) ∧
      (∃ b, dget im piecesKey = some (.bytes b))) :=
  ⟨by decide, c4_required_fields c4Input c4Torrent (by decide)⟩

/-- C4 counterexample: `c4Input`'s decoded `info` contains neither `files`
nor `length`, and its `pieces` has length 1 (not divisible by 20), yet
`read_torrent` returns a torrent instead of an error. -/
theorem c4_counterexample :
    readTorrent c4Input = Except.ok c4Torrent ∧
    (match parseBencode (parseFuel c4Input) c4Input.length c4Input with
      | .ok (.dict m) _ =>
        match dget m infoKey with
        | some (.dict im) =>
          (dget im filesKey).isNone && (dget im lengthKey).isNone &&
            (match dget im piecesKey with
              | some (.bytes b) => b.length % 20 == 1
              | _ => false)
        | _ => false
      | _ => false) = true :=
  ⟨by decide, by decide⟩

/-- C10 (corrected): with at least the fuel `read_torrent` supplies, the
decoder terminates on every input and input length — it never exhausts its
fuel — and a successful parse consumes at least one byte (the remaining
suffix is strictly shorter), which is exactly the well-foundedness of the
recursion over list and dictionary elements.  It does not, however,
always return a parsed value or an error: the byte-string case panics
when the cursor plus the parsed length overflows `usize`
(see `c10_counterexample`). -/
theorem c10_decoder_total (fuel tot : Nat) (data : List Nat)
    (h : parseFuel data ≤ fuel) :
    (parseBencode fuel tot data).isSpin = false ∧
    (∀ v rest, parseBencode fuel tot data = .ok v rest →
      rest.length < data.length) :=
  (parseBencode_total fuel).1 tot data (by simpa [parseFuel] using h)

theorem c10_decoder_total_witness :
    parseFuel c4Input ≤ parseFuel c4Input ∧
    ((parseBencode (parseFuel c4Input) c4Input.length c4Input).isSpin = false ∧
      (∀ v rest,
        parseBencode (parseFuel c4Input) c4Input.length c4Input = .ok v rest →
        rest.length < c4Input.length)) :=
  ⟨Nat.le_refl _,
    c10_decoder_total (parseFuel c4Input) c4Input.length c4Input (Nat.le_refl _)⟩

/-- C10 counterexample: on the 22-byte input `18446744073709551615:x` the
string length parses to `usize::MAX`, the cursor after the colon is 21,
and `*pos + len` reaches `2 ^ 64` — a debug build panics on the addition
and a release build wraps `end` to 20 and panics on `&data[21..20]`; the
parser crashes instead of returning a parsed value or an error. -/
theorem c10_counterexample :
    c10Input.length = 22 ∧
    (parseBencode (parseFuel c10Input) c10Input.length c10Input).isCrash = true ∧
    (parseBencode (parseFuel c10Input) c10Input.length c10Input).isSpin = false :=
  ⟨by decide, by decide, by decide⟩

/-- C2 counterexample: on a 1-byte file followed by a zero-byte file with
`piece_length = 2`, the verifier's inline map places a spurious zero-length
triple of file 1 into piece 0, while the planner's map does not — the maps
differ. -/
theorem c2_counterexample :
    inlinePieceMap c2Files 2 ≠ calcPieceFileInfo c2Files 2 ∧
    inlinePieceMap c2Files 2 = [[⟨0, 0, 1⟩, ⟨1, 0, 0⟩]] ∧
    calcPieceFileInfo c2Files 2 = [[⟨0, 0, 1⟩]] :=
  ⟨by decide, by decide, by decide⟩

theorem c2_amended_witness :
    (0 : Nat) < 2 ∧
    inlinePieceMap [⟨5, []⟩] 2 = calcPieceFileInfo [⟨5, []⟩] 2 :=
  ⟨by decide, c2_amended 5 2 [] (by decide)⟩

theorem c3_planner_witness :
    (0 : Nat) < 2 ∧
    (planSum (calcPieceFileInfo [⟨3, []⟩, ⟨2, []⟩] 2) = sumLens [⟨3, []⟩, ⟨2, []⟩] ∧
      (∀ p ∈ (calcPieceFileInfo [⟨3, []⟩, ⟨2, []⟩] 2).dropLast, pieceSumR p = 2) ∧
      (calcPieceFileInfo [⟨3, []⟩, ⟨2, []⟩] 2).length =
        (sumLens [⟨3, []⟩, ⟨2, []⟩] + 2 - 1) / 2 ∧
      (∀ fi : Fin ([⟨3, []⟩, ⟨2, []⟩] : List TrFile).length,
        0 < (([⟨3, []⟩, ⟨2, []⟩] : List TrFile).get fi).length →
        ∃ p ∈ calcPieceFileInfo [⟨3, []⟩, ⟨2, []⟩] 2,
          ∃ x ∈ p, x.file_index = fi.val)) :=
  ⟨by decide, c3_planner [⟨3, []⟩, ⟨2, []⟩] 2 (by decide)⟩

theorem bencode_infoSegs (i : TrInfo) :
    i.bencode = 100 :: segsBytes (infoSegs i) ++ [101] := by
  rcases i with ⟨files, length, name, pl, pieces, priv⟩
  cases files <;> cases length <;> cases name <;> cases priv <;> cases pieces <;>
    simp [TrInfo.bencode, infoSegs, segsBytes, filesKey, lengthKey, nameKey,
      pieceLengthKey, piecesKey, privateKey, List.append_assoc]

set_option maxHeartbeats 2000000 in
theorem bencode_topSegs (t : Torrent) :
    t.bencode = 100 :: segsBytes (topSegs t) ++ [101] := by
  rcases t with ⟨a, al, c, cb, cd, e, h, i⟩
  cases a <;> cases al <;> cases c <;> cases cb <;> cases cd <;> cases e <;>
    cases h <;> cases i <;>
    simp only [Torrent.bencode, topSegs, segsBytes, announceKey,
      announceListKey, commentKey, createdByKey, creationDateKey, encodingKey,
      infoKey, hashKey, List.flatMap_cons, List.flatMap_nil, List.nil_append,
      List.cons_append, List.append_nil, List.append_assoc]

theorem bencode_fileSegs (f : TrFile) :
    f.bencode = 100 :: segsBytes (fileSegs f) ++ [101] := by
  simp [TrFile.bencode, fileSegs, segsBytes, lengthKey, pathKey,
    List.append_assoc]

theorem infoSegs_keys_sublist (i : TrInfo) :
    List.Sublist ((infoSegs i).map Prod.fst) canonInfoKeys := by
  rcases i with ⟨files, length, name, pl, pieces, priv⟩
  cases files <;> cases length <;> cases name <;> cases priv <;> cases pieces <;>
    simp [infoSegs] <;> decide

theorem topSegs_keys_sublist (t : Torrent) :
    List.Sublist ((topSegs t).map Prod.fst) canonTopKeys := by
  rcases t with ⟨a, al, c, cb, cd, e, h, i⟩
  cases a <;> cases al <;> cases c <;> cases cb <;> cases cd <;> cases e <;>
    cases h <;> cases i <;>
    simp [topSegs] <;> decide

/-- C5 (corrected): each encoder emits its dictionary as the concatenation
of key/value segments in the canonical order (a subsequence of the full
canonical key list); the `info` and file-entry keys are strictly ascending
in byte order, and the top-level keys are strictly ascending only after
removing the nonstandard `hash`, which the encoder emits last, after
`info`, although `hash` sorts before `info`. -/
theorem c5_encoder_key_order (t : Torrent) (i : TrInfo) (f : TrFile) :
    (t.bencode = 100 :: segsBytes (topSegs t) ++ [101] ∧
      List.Sublist ((topSegs t).map Prod.fst) canonTopKeys ∧
      List.Pairwise (fun a b => bytesLtB a b = true)
        (((topSegs t).map Prod.fst).filter (fun k => k != hashKey))) ∧
    (i.bencode = 100 :: segsBytes (infoSegs i) ++ [101] ∧
      List.Sublist ((infoSegs i).map Prod.fst) canonInfoKeys ∧
      List.Pairwise (fun a b => bytesLtB a b = true) ((infoSegs i).map Prod.fst)) ∧
    (f.bencode = 100 :: segsBytes (fileSegs f) ++ [101] ∧
      List.Pairwise (fun a b => bytesLtB a b = true) ((fileSegs f).map Prod.fst)) := by
  refine ⟨⟨bencode_topSegs t, topSegs_keys_sublist t, ?_⟩,
    ⟨bencode_infoSegs i, infoSegs_keys_sublist i, ?_⟩,
    ⟨bencode_fileSegs f, ?_⟩⟩
  · exact List.Pairwise.sublist ((topSegs_keys_sublist t).filter _)
      (by decide : List.Pairwise (fun a b => bytesLtB a b = true)
        (canonTopKeys.filter (fun k => k != hashKey)))
  · exact List.Pairwise.sublist (infoSegs_keys_sublist i)
      (by decide : List.Pairwise (fun a b => bytesLtB a b = true) canonInfoKeys)
  · simp only [fileSegs, List.map_cons, List.map_nil] <;> decide

/-- C5 counterexample: for a round-trip-shaped torrent carrying every
field, the emitted top-level key sequence is the full canonical list with
`hash` after `info`, and that sequence is not in ascending byte order
(`hash` < `info` bytewise). -/
theorem c5_counterexample :
    c5T.bencode = 100 :: segsBytes (topSegs c5T) ++ [101] ∧
    (topSegs c5T).map Prod.fst = canonTopKeys ∧
    ¬ List.Pairwise (fun a b => bytesLtB a b = true) ((topSegs c5T).map Prod.fst) ∧
    bytesLtB hashKey infoKey = true :=
  ⟨bencode_topSegs c5T, by decide, by decide, by decide⟩

/-- C6 (code_bug): creating a torrent for a zero-byte single file yields
`length = some 0` and an empty `pieces` string, as the claim says — but the
encoder omits the empty `pieces` key, so the decoder rejects the encoder's
own output with `pieces missing` instead of round-tripping it. -/
theorem c6_empty_file_roundtrip :
    c6Info.length = some 0 ∧ c6Info.pieces = [] ∧
    readTorrent c6Torrent.bencode =
      Except.error (.invalidTorrent "pieces missing") :=
  ⟨by decide, by decide, by decide⟩

theorem runSched_mem (readF : ReadOracle) (info : List (List FileHashInfo)) :
    ∀ (order : List Nat) (s0 : Nat → Option (Except String (List Nat)))
      (i : Nat),
      (order.foldl (fun slots j => writeSlot slots j (taskOf readF info j)) s0) i =
        if i ∈ order then some (taskOf readF info i) else s0 i := by
  intro order
  induction order with
  | nil => intro s0 i; simp
  | cons j rest ih =>
    intro s0 i
    rw [List.foldl_cons, ih]
    by_cases hmem : i ∈ rest
    · rw [if_pos hmem, if_pos (List.mem_cons_of_mem _ hmem)]
    · rw [if_neg hmem]
      unfold writeSlot
      by_cases hij : i = j
      · subst hij
        rw [if_pos rfl, if_pos (List.mem_cons_self ..)]
      · rw [if_neg hij, if_neg (by simp [hij, hmem])]

/-- C7 (confirmed, under the pool model): the assembled result vector is
the same for every worker count and every task-completion order that runs
each piece exactly once — piece hashing commutes with scheduling because
each task writes only its own piece-index slot. -/
theorem c7_hash_deterministic (readF : ReadOracle)
    (info : List (List FileHashInfo)) (n1 n2 : Nat) (order1 order2 : List Nat)
    (h1 : order1.Perm (List.range info.length))
    (h2 : order2.Perm (List.range info.length)) :
    collectSched readF info n1 order1 = collectSched readF info n2 order2 := by
  unfold collectSched
  refine List.map_congr_left fun i hi => ?_
  unfold runSched
  rw [runSched_mem, runSched_mem, if_pos (h1.mem_iff.mpr hi),
    if_pos (h2.mem_iff.mpr hi)]

theorem c7_hash_deterministic_witness :
    ([1, 0] : List Nat).Perm (List.range ([[⟨0, 0, 2⟩], [⟨1, 0, 2⟩]] :
      List (List FileHashInfo)).length) ∧
    ([0, 1] : List Nat).Perm (List.range ([[⟨0, 0, 2⟩], [⟨1, 0, 2⟩]] :
      List (List FileHashInfo)).length) ∧
    collectSched oracleOk [[⟨0, 0, 2⟩], [⟨1, 0, 2⟩]] 1 [1, 0] =
      collectSched oracleOk [[⟨0, 0, 2⟩], [⟨1, 0, 2⟩]] 8 [0, 1] :=
  ⟨by decide, by decide,
    c7_hash_deterministic oracleOk [[⟨0, 0, 2⟩], [⟨1, 0, 2⟩]] 1 8 [1, 0] [0, 1]
      (by decide) (by decide)⟩

/-- C8 (corrected): an I/O error in any piece task aborts the whole
collection with a `TrError::IO` value wrapping the underlying error. -/
theorem c8_abort_on_error (readF : ReadOracle)
    (info : List (List FileHashInfo))
    (h : ∃ piece ∈ info, ∃ e, runPiece readF piece = .error e) :
    ∃ e2, hashPieceFileSeq readF info = .error (.io e2) := by
  induction info with
  | nil =>
    rcases h with ⟨p, hp, _⟩
    cases hp
  | cons piece rest ih =>
    cases hr : runPiece readF piece with
    | error e => exact ⟨e, by simp [hashPieceFileSeq, hr]⟩
    | ok d =>
      rcases h with ⟨p, hp, e, he⟩
      rcases List.mem_cons.mp hp with rfl | hp2
      · rw [hr] at he
        cases he
      · obtain ⟨e2, h2⟩ := ih ⟨p, hp2, e, he⟩
        exact ⟨e2, by simp [hashPieceFileSeq, hr, h2, Except.map]⟩

theorem c8_abort_on_error_witness :
    (∃ piece ∈ c8Info, ∃ e, runPiece oracleA piece = .error e) ∧
    (∃ e2, hashPieceFileSeq oracleA c8Info = .error (.io e2)) :=
  ⟨⟨[⟨0, 0, 4⟩], by decide, "permission denied", by decide⟩,
    c8_abort_on_error oracleA c8Info
      ⟨[⟨0, 0, 4⟩], by decide, "permission denied", by decide⟩⟩

/-- C8 counterexample: two runs whose I/O failures hit different files and
different piece indices produce the very same error value — the error
identifies neither the offending file nor the piece index. -/
theorem c8_counterexample :
    hashPieceFileSeq oracleA c8Info = .error (.io "permission denied") ∧
    hashPieceFileSeq oracleB c8Info = .error (.io "permission denied") ∧
    hashPieceFileSeq oracleA c8Info = hashPieceFileSeq oracleB c8Info ∧
    (∃ e, runPiece oracleA [⟨0, 0, 4⟩] = .error e) ∧
    (∃ d, runPiece oracleA [⟨1, 0, 4⟩] = .ok d) ∧
    (∃ d, runPiece oracleB [⟨0, 0, 4⟩] = .ok d) ∧
    (∃ e, runPiece oracleB [⟨1, 0, 4⟩] = .error e) :=
  ⟨by decide, by decide, by decide, ⟨"permission denied", by decide⟩,
    ⟨_, rfl⟩, ⟨_, rfl⟩, ⟨"permission denied", by decide⟩⟩

theorem topSegs_hash_split (t : Torrent) (h : List Nat) :
    topSegs { t with hash := some h } =
      topSegs { t with hash := none } ++ [(hashKey, bencodeString h)] := by
  simp [topSegs, List.append_assoc]

/-- C9 (corrected): the `hash` field is not read/write pass-through only —
`create_torrent` always installs `hash = hex(SHA-1(bencode(info)))`, and the
encoder then emits a `hash` key for every created torrent (as the final
key, right before the closing `e`). -/
theorem c9_create_emits_hash (t : Torrent) (i : TrInfo) :
    (createTorrentStep t i).hash = some i.hash ∧
    ∃ pre, (createTorrentStep t i).bencode =
      pre ++ bencodeString hashKey ++ bencodeString i.hash ++ [101] := by
  refine ⟨rfl,
    100 :: segsBytes (topSegs { createTorrentStep t i with hash := none }), ?_⟩
  rw [bencode_topSegs,
    show createTorrentStep t i =
      { createTorrentStep t i with hash := some i.hash } from rfl,
    topSegs_hash_split]
  simp [segsBytes, List.append_assoc]

/-- C9 counterexample: `c9Base` has no `hash` field (it is a freshly built
torrent, not a round-tripped one), yet the serialized output of
`create_torrent` contains the `hash` key — bytes 97..102 of the output are
`4:hash`. -/
theorem c9_counterexample :
    c9Base.hash = none ∧
    ((createTorrentStep c9Base c9Info).bencode.drop 97).take 6 =
      [52, 58, 104, 97, 115, 104] :=
  ⟨by decide, by decide⟩
